import Mathlib

/-! # convertMarkdown.js: Markdown tree to SCORM package

A shallow embedding of `src/convertMarkdown.js`.

* JavaScript strings are lists of characters (`Str`).  File names and file
  contents reach the program decoded from UTF-8, so they are well-formed
  and a list of code points carries the same information as the list of
  UTF-16 code units the runtime uses.
* The library calls the program makes (`String.prototype.replace`,
  `String.prototype.endsWith`, `path.join`, `path.basename`,
  `JSON.stringify`) are modelled after their ECMAScript and Node
  definitions; paths are POSIX paths, with `/` as the separator.
* `markdown.render` is a parameter.
* The input file system is a tree of directory entries in which each read can
  fail.  The outcome of `mkdir` and `writeFile` is given by an environment.
* A run of the conversion is the list of its events; a recursive invocation
  is one event that holds the events of that invocation.
-/

namespace ConvertMarkdown

/-- A JavaScript string. -/
abbrev Str := List Char

/-! ## `String.prototype` -/

/-- The call `name.endsWith(suffix)`. -/
def endsWith (s suffix : Str) : Bool := suffix.isSuffixOf s

/-- The first occurrence of `pat` in a string: the text before it and the text
after it (`indexOf`, as used by `replace` with a string pattern). -/
def splitFirst (pat : Str) : Str → Option (Str × Str)
  | [] => if pat.isPrefixOf [] then some ([], []) else none
  | c :: cs =>
    if pat.isPrefixOf (c :: cs) then some ([], (c :: cs).drop pat.length)
    else match splitFirst pat cs with
      | none => none
      | some (before, after) => some (c :: before, after)

/-- The abstract operation GetSubstitution of ECMAScript for a match without
capture groups: in the replacement text `$$` stands for `$`, `$&` for the
matched text, `$` + backtick for the text before the match and `$` +
apostrophe for the text after it; everything else is literal. -/
def getSubstitution (matched before after : Str) : Str → Str
  | [] => []
  | [c] => [c]
  | c :: d :: rest =>
    if c = '$' then
      if d = '$' then '$' :: getSubstitution matched before after rest
      else if d = '&' then matched ++ getSubstitution matched before after rest
      else if d = '\x60' then before ++ getSubstitution matched before after rest
      else if d = '\x27' then after ++ getSubstitution matched before after rest
      else c :: getSubstitution matched before after (d :: rest)
    else c :: getSubstitution matched before after (d :: rest)

/-- The call `s.replace(pat, replacement)` with a string pattern: only the
first occurrence is replaced, and the replacement goes through
`getSubstitution`. -/
def replaceString (s pat replacement : Str) : Str :=
  match splitFirst pat s with
  | none => s
  | some (before, after) => before ++ getSubstitution pat before after replacement ++ after

/-- The call `replace` with the global hyphen pattern and a single space:
every hyphen becomes a space (the replacement text has no `$`). -/
def replaceHyphens (s : Str) : Str := s.map fun c => if c = '-' then ' ' else c

/-! ## `path` (POSIX) -/

/-- The segments of a path between its `/` separators. -/
def splitOnSlash : Str → List Str
  | [] => [[]]
  | c :: cs =>
    if c = '/' then [] :: splitOnSlash cs
    else match splitOnSlash cs with
      | [] => [[c]]
      | seg :: segs => (c :: seg) :: segs

/-- One step of `normalizeString`: `stack` holds the segments kept so far,
last one first. -/
def normalizeStep (allowAboveRoot : Bool) (stack : List Str) (seg : Str) : List Str :=
  if seg = [] ∨ seg = ['.'] then stack
  else if seg = ['.', '.'] then
    match stack with
    | [] => if allowAboveRoot then [seg] else []
    | top :: below => if top = ['.', '.'] then seg :: stack else below
  else seg :: stack

/-- The function `path.normalize`. -/
def normalize (p : Str) : Str :=
  if p = [] then ['.'] else
  let isAbsolute := p.head? = some '/'
  let trailingSeparator := p.getLast? = some '/'
  let segs := ((splitOnSlash p).foldl (normalizeStep (!isAbsolute)) []).reverse
  let res := List.intercalate ['/'] segs
  if res = [] then
    if isAbsolute then ['/'] else if trailingSeparator then ['.', '/'] else ['.']
  else
    let res := if trailingSeparator then res ++ ['/'] else res
    if isAbsolute then '/' :: res else res

/-- The function `path.join`: the non-empty arguments joined by `/`, then
normalised. -/
def pathJoin (args : List Str) : Str :=
  match args.filter (fun a => a ≠ []) with
  | [] => ['.']
  | parts => normalize (List.intercalate ['/'] parts)

/-- The last segment of a path, trailing separators ignored. -/
def lastSegment (p : Str) : Str :=
  ((splitOnSlash p).filter (fun s => s ≠ [])).getLast?.getD []

/-- The function `path.basename(p, ext)`. -/
def basename (p ext : Str) : Str :=
  if ext = p then []
  else
    let base := lastSegment p
    if ext ≠ [] ∧ ext.length < base.length ∧ ext.isSuffixOf base then
      base.take (base.length - ext.length)
    else base

/-! ## The page template -/

/-- The constant `template`. -/
def template : Str :=
  ("\n<!DOCTYPE html\n" ++
   "\tPUBLIC \"-//W3C//DTD XHTML 1.0 Transitional//EN\" \"http://www.w3.org/TR/xhtml1/DTD/xhtml1-transitional.dtd\">\n" ++
   "<html xmlns=\"http://www.w3.org/1999/xhtml\" dir=\"ltr\" lang=\"en-US\">\n" ++
   "\n" ++
   "<head>\n" ++
   "\t<title>\x7b\x7btitle\x7d\x7d</title>\n" ++
   "\t<style type=\"text/css\" media=\"screen\">\n" ++
   "\t\t@import url(../styles/styles.css);\n" ++
   "\t</style>\n" ++
   "\t<script src=\"/config/api.js\" type=\"text/javascript\"></script>\n" ++
   "</head>\n" ++
   "\n" ++
   "<body>\n" ++
   "\t<div class=\"container\">\n" ++
   "\t\t\x7b\x7bcontent\x7d\x7d\n" ++
   "\t</div>\n" ++
   "</body>\n" ++
   "\n" ++
   "</html>\n").toList

/-- The placeholder of the title slot. -/
def titleSlot : Str := "\x7b\x7btitle\x7d\x7d".toList

/-- The placeholder of the content slot. -/
def contentSlot : Str := "\x7b\x7bcontent\x7d\x7d".toList

/-- The value of `title` for a file name (line 47). -/
def pageTitle (name : Str) : Str := replaceHyphens (basename name ".md".toList)

/-- The value of `htmlContent` (line 48). -/
def htmlContent (title result : Str) : Str :=
  replaceString (replaceString template titleSlot title) contentSlot result

/-- The name under which an entry is mirrored in the output directory
(line 39): `file.name.replace('.md', '.html')`. -/
def outputName (name : Str) : Str := replaceString name ".md".toList ".html".toList

/-! ## The file system and the tree conversion -/

/-- An entry returned by `readdir(dir, { withFileTypes: true })`, with what the
program finds behind it: for a regular file the result of `readFile` (`none`
when the read fails), for a directory the result of `readdir` on it (`none`
when the listing fails).  An entry that is neither (`isFile()` and
`isDirectory()` both false: a link, a socket, ...) is `other`. -/
inductive Dirent where
  | file (name : Str) (data : Option Str)
  | dir (name : Str) (entries : Option (List Dirent))
  | other (name : Str)

/-- The collaborators of the conversion that are not part of the input tree:
whether `mkdir(path, { recursive: true })` and `writeFile(path, ...)`
succeed, and the Markdown renderer. -/
structure Env where
  mkdirOk : Str → Bool
  writeOk : Str → Bool
  render : Str → Str

/-- What an invocation of `convertMarkdownToHTML` does, in order.  A recursive
invocation is recorded as one `call` event that holds its own events. -/
inductive Event where
  | mkdir (path : Str)
  | writeFile (path : Str) (content : Str)
  | converted (inputFilePath outputFilePath : Str)
  | generateIMSManifest (outputDir : Str)
  | updateIndexHTML (outputDir : Str)
  | errorLogged
  | call (inputDir outputDir : Str) (events : List Event)

mutual
/-- The function `convertMarkdownToHTML` (lines 33-63).  `listing` is the result
of `readdir(inputDir)`.  The `try` block is `convertLoop` followed by the two
calls of lines 55 and 58; an error anywhere in it goes to the `catch`, which
logs it. -/
def convertMarkdownToHTML (env : Env) (inputDir outputDir : Str) :
    Option (List Dirent) → List Event
  | none => [Event.errorLogged]
  | some files =>
    match convertLoop env inputDir outputDir files with
    | (events, true) =>
      events ++ [Event.generateIMSManifest outputDir, Event.updateIndexHTML outputDir]
    | (events, false) => events ++ [Event.errorLogged]
/-- The `for` loop of lines 37-52: the events of the iterations that ran, and
whether the loop completed (`false`: an `await` in it threw). -/
def convertLoop (env : Env) (inputDir outputDir : Str) : List Dirent → List Event × Bool
  | [] => ([], true)
  | Dirent.dir name entries :: rest =>
    let inputFilePath := pathJoin [inputDir, name]
    let outputFilePath := pathJoin [outputDir, outputName name]
    if env.mkdirOk outputFilePath then
      let inner := convertMarkdownToHTML env inputFilePath outputFilePath entries
      let (events, completed) := convertLoop env inputDir outputDir rest
      (Event.mkdir outputFilePath :: Event.call inputFilePath outputFilePath inner :: events,
        completed)
    else ([], false)
  | Dirent.file name data :: rest =>
    let inputFilePath := pathJoin [inputDir, name]
    let outputFilePath := pathJoin [outputDir, outputName name]
    if endsWith name ".md".toList then
      match data with
      | none => ([], false)
      | some text =>
        let htmlContent := htmlContent (pageTitle name) (env.render text)
        if env.writeOk outputFilePath then
          let (events, completed) := convertLoop env inputDir outputDir rest
          (Event.writeFile outputFilePath htmlContent ::
            Event.converted inputFilePath outputFilePath :: events, completed)
        else ([], false)
    else convertLoop env inputDir outputDir rest
  | Dirent.other _ :: rest => convertLoop env inputDir outputDir rest
end

/-- The body of the script (lines 161-169).  `inputPath` is `process.argv[2]`
(`none` when the argument is absent) and `dirname` is `__dirname`.  Without an
input path the process exits with status 1 and nothing else happens (`none`);
otherwise the script makes one invocation of `convertMarkdownToHTML`, the
top-level one, whose events are the result.  `listing` is the result of
`readdir(inputPath)`. -/
def runScript (env : Env) (dirname : Str) (inputPath : Option Str)
    (listing : Option (List Dirent)) : Option (List Event) :=
  match inputPath with
  | none => none
  | some inputPath =>
    if inputPath = [] then none
    else
      let outputPath := pathJoin [dirname, "resources".toList]
      some (convertMarkdownToHTML env inputPath outputPath listing)

mutual
/-- The events of a run in the order they happen, recursive invocations
inlined. -/
def flattenEvent : Event → List Event
  | Event.call _ _ events => flattenEvents events
  | e => [e]
/-- The events of a list of events, recursive invocations inlined. -/
def flattenEvents : List Event → List Event
  | [] => []
  | e :: es => flattenEvent e ++ flattenEvents es
end

/-- The paths written by `writeFile` among flat events, in order. -/
def writtenPaths : List Event → List Str
  | [] => []
  | Event.writeFile path _ :: es => path :: writtenPaths es
  | _ :: es => writtenPaths es

/-- The arguments of the calls of `generateIMSManifest` among flat events. -/
def manifestCalls : List Event → List Str
  | [] => []
  | Event.generateIMSManifest d :: es => d :: manifestCalls es
  | _ :: es => manifestCalls es

/-- The arguments of the calls of `updateIndexHTML` among flat events. -/
def indexCalls : List Event → List Str
  | [] => []
  | Event.updateIndexHTML d :: es => d :: indexCalls es
  | _ :: es => indexCalls es

/-! ## The scan of the output directory and the manifest -/

/-- The text appended to `resources` for one path (lines 73 and 81). -/
def fileTag (filePath : Str) : Str :=
  "<file href=\"".toList ++ filePath ++ "\" />\n".toList

/-- The inner loop of `generateIMSManifest` (lines 78-83) over the entries of the
subdirectory `dirName`, on the string `resources`. -/
def manifestSubLoop (dirName : Str) : Str → List Dirent → Str
  | resources, [] => resources
  | resources, Dirent.file name _ :: rest =>
    if endsWith name ".html".toList then
      let subFilePath := pathJoin ["resources".toList, dirName, name]
      manifestSubLoop dirName (resources ++ fileTag subFilePath) rest
    else manifestSubLoop dirName resources rest
  | resources, _ :: rest => manifestSubLoop dirName resources rest

/-- The outer loop of `generateIMSManifest` (lines 70-85), on the string
`resources`; `none` when the `readdir` of a subdirectory throws. -/
def manifestLoop : Str → List Dirent → Option Str
  | resources, [] => some resources
  | resources, Dirent.file name _ :: rest =>
    if endsWith name ".html".toList then
      let filePath := pathJoin ["resources".toList, name]
      manifestLoop (resources ++ fileTag filePath) rest
    else manifestLoop resources rest
  | _, Dirent.dir _ none :: _ => none
  | resources, Dirent.dir name (some subDirFiles) :: rest =>
    manifestLoop (manifestSubLoop name resources subDirFiles) rest
  | resources, Dirent.other _ :: rest => manifestLoop resources rest

/-- The template literal `manifestContent` (lines 87-117). -/
def manifestContent (resources : Str) : Str :=
  ("<?xml version=\"1.0\" standalone=\"no\"?>\n" ++
   "<manifest identifier=\"com.scorm.golfsamples.runtime.basicruntime.12\" version=\"1\"\n" ++
   "  xmlns=\"http://www.imsproject.org/xsd/imscp_rootv1p1p2\"\n" ++
   "  xmlns:adlcp=\"http://www.adlnet.org/xsd/adlcp_rootv1p2\"\n" ++
   "  xmlns:xsi=\"http://www.w3.org/2001/XMLSchema-instance\"\n" ++
   "  xsi:schemaLocation=\"http://www.imsproject.org/xsd/imscp_rootv1p1p2 imscp_rootv1p1p2.xsd\n" ++
   "                      http://www.imsglobal.org/xsd/imsmd_rootv1p2p1 imsmd_rootv1p2p1.xsd\n" ++
   "                      http://www.adlnet.org/xsd/adlcp_rootv1p2 adlcp_rootv1p2.xsd\">\n" ++
   "\n" ++
   "  <metadata>\n" ++
   "    <schema>ADL SCORM</schema>\n" ++
   "    <schemaversion>1.2</schemaversion>\n" ++
   "  </metadata>\n" ++
   "  <organizations default=\"four_geeks_academy_org\">\n" ++
   "    <organization identifier=\"four_geeks_academy_org\">\n" ++
   "      <title>Prompt Engineering Course</title>\n" ++
   "      <item identifier=\"item_1\" identifierref=\"resource\">\n" ++
   "        <title>Prompt Engineering</title>\n" ++
   "      </item>\n" ++
   "    </organization>\n" ++
   "  </organizations>\n" ++
   "  <resources>\n" ++
   "    <resource identifier=\"resource\" type=\"webcontent\" adlcp:scormtype=\"sco\"\n" ++
   "      href=\"config/index.html\">\n" ++
   "      ").toList ++ resources ++
  ("\n" ++
   "      <file href=\"config/index.html\" />\n" ++
   "      <file href=\"config/api.js\" />\n" ++
   "      <file href=\"resources/styles/styles.css\" />\n" ++
   "    </resource>\n" ++
   "  </resources>\n" ++
   "</manifest>").toList

/-- The function `generateIMSManifest` (lines 65-124): the text written to
`imsmanifest.xml`, or `none` when a `readdir` throws and the `catch` logs the
error.  `listing` is the result of `readdir(outputDir)`. -/
def generateIMSManifest : Option (List Dirent) → Option Str
  | none => none
  | some files => (manifestLoop [] files).map manifestContent

/-! ## The index update -/

/-- The inner loop of `updateIndexHTML` (lines 139-144). -/
def pageArraySubLoop (dirName : Str) : List Str → List Dirent → List Str
  | pageArray, [] => pageArray
  | pageArray, Dirent.file name _ :: rest =>
    if endsWith name ".html".toList then
      pageArraySubLoop dirName (pageArray ++ [pathJoin ["resources".toList, dirName, name]]) rest
    else pageArraySubLoop dirName pageArray rest
  | pageArray, _ :: rest => pageArraySubLoop dirName pageArray rest

/-- The outer loop of `updateIndexHTML` (lines 131-146); `none` when the
`readdir` of a subdirectory throws. -/
def pageArrayLoop : List Str → List Dirent → Option (List Str)
  | pageArray, [] => some pageArray
  | pageArray, Dirent.file name _ :: rest =>
    if endsWith name ".html".toList then
      pageArrayLoop (pageArray ++ [pathJoin ["resources".toList, name]]) rest
    else pageArrayLoop pageArray rest
  | _, Dirent.dir _ none :: _ => none
  | pageArray, Dirent.dir name (some subDirFiles) :: rest =>
    pageArrayLoop (pageArraySubLoop name pageArray subDirFiles) rest
  | pageArray, Dirent.other _ :: rest => pageArrayLoop pageArray rest

/-- A lower-case hexadecimal digit. -/
def hexDigit (n : Nat) : Char :=
  if n < 10 then Char.ofNat (48 + n) else Char.ofNat (87 + n)

/-- One character inside a JSON string literal (QuoteJSONString). -/
def quoteJSONChar (c : Char) : Str :=
  if c = '"' then ['\\', '"']
  else if c = '\\' then ['\\', '\\']
  else if c = '\x08' then ['\\', 'b']
  else if c = '\x0c' then ['\\', 'f']
  else if c = '\n' then ['\\', 'n']
  else if c = '\r' then ['\\', 'r']
  else if c = '\t' then ['\\', 't']
  else if c.toNat < 32 then
    ['\\', 'u', '0', '0', hexDigit (c.toNat / 16), hexDigit (c.toNat % 16)]
  else [c]

/-- The JSON text of a string. -/
def quoteJSONString (s : Str) : Str :=
  '"' :: (s.map quoteJSONChar).flatten ++ ['"']

/-- The call `JSON.stringify(pageArray)` for an array of strings. -/
def jsonStringify (pageArray : List Str) : Str :=
  '[' :: List.intercalate [','] (pageArray.map quoteJSONString) ++ [']']

/-- The value of `pageArrayString` (line 151). -/
def pageArrayString (pageArray : List Str) : Str :=
  "var pageArray = ".toList ++ jsonStringify pageArray ++ [';']

/-- The characters the pattern `.` does not match. -/
def isLineTerminator (c : Char) : Bool :=
  c = '\n' || c = '\r' || c = Char.ofNat 0x2028 || c = Char.ofNat 0x2029

/-- The tail `.*;` of the pattern, matched at the start of a string by
backtracking: the star first takes one more character and goes on; when that
fails it stops here and the next character has to be `;`.  The result is the
number of characters matched. -/
def matchDotStarSemi : Str → Option Nat
  | [] => none
  | c :: cs =>
    if isLineTerminator c then none
    else match matchDotStarSemi cs with
      | some n => some (n + 1)
      | none => if c = ';' then some 1 else none

/-- The literal head of the pattern. -/
def pageArrayHead : Str := "var pageArray = ".toList

/-- The pattern of line 152 matched at the start of a string: the length of
the match. -/
def matchPageArrayAt (s : Str) : Option Nat :=
  if pageArrayHead.isPrefixOf s then
    (matchDotStarSemi (s.drop pageArrayHead.length)).map fun n => pageArrayHead.length + n
  else none

/-- The first match of the pattern in a string (the start positions are tried
from left to right): the text before it, the match, and the text after it. -/
def searchPageArray : Str → Option (Str × Str × Str)
  | [] => none
  | c :: cs =>
    match matchPageArrayAt (c :: cs) with
    | some n => some ([], (c :: cs).take n, (c :: cs).drop n)
    | none =>
      match searchPageArray cs with
      | none => none
      | some (before, matched, after) => some (c :: before, matched, after)

/-- The call `indexContent.replace(pattern, pageArrayString)` of line 152: the
pattern has no `g` flag, so the first match only is replaced, and the
replacement goes through `getSubstitution`. -/
def replacePageArray (indexContent replacement : Str) : Str :=
  match searchPageArray indexContent with
  | none => indexContent
  | some (before, matched, after) =>
    before ++ getSubstitution matched before after replacement ++ after

/-- The function `updateIndexHTML` (lines 126-159): the text written back to
`config/index.html`, or `none` when a `readdir` or the `readFile` throws.
`listing` is the result of `readdir(outputDir)` and `indexContent` the result
of reading the index file. -/
def updateIndexHTML : Option (List Dirent) → Option Str → Option Str
  | none, _ => none
  | some files, indexContent =>
    match pageArrayLoop [] files with
    | none => none
    | some pageArray =>
      match indexContent with
      | none => none
      | some text => some (replacePageArray text (pageArrayString pageArray))

/-! ## Listings as the file system returns them, and the resource list -/

/-- A name as `readdir` returns it: not empty, without separator, and neither
`.` nor `..`. -/
def validName (name : Str) : Bool :=
  decide (name ≠ []) && decide ('/' ∉ name) && decide (name ≠ ['.']) && decide (name ≠ ['.', '.'])

/-- The name of an entry. -/
def Dirent.name : Dirent → Str
  | Dirent.file name _ => name
  | Dirent.dir name _ => name
  | Dirent.other name => name

/-- The test `file.isFile() && file.name.endsWith('.html')`. -/
def Dirent.isHtmlFile : Dirent → Bool
  | Dirent.file name _ => endsWith name ".html".toList
  | _ => false

/-- The entries directly inside an entry: the listing of a readable directory,
nothing for anything else. -/
def Dirent.children : Dirent → List Dirent
  | Dirent.dir _ (some entries) => entries
  | _ => []

/-- Whether `readdir` succeeds on the entry if it is a directory. -/
def Dirent.readable : Dirent → Bool
  | Dirent.dir _ none => false
  | _ => true

/-- Every directory at the top level of a listing can be listed. -/
def allReadable (files : List Dirent) : Bool := files.all Dirent.readable

/-- The names at the two levels a scan looks at are names as `readdir`
returns them. -/
def namesValid (files : List Dirent) : Bool :=
  files.all fun e => validName e.name && e.children.all fun s => validName s.name

/-- No directory at the two levels a scan looks at lists a name twice. -/
def distinctNames (files : List Dirent) : Prop :=
  (files.map Dirent.name).Nodup ∧ ∀ e ∈ files, (e.children.map Dirent.name).Nodup

instance (files : List Dirent) : Decidable (distinctNames files) :=
  inferInstanceAs (Decidable (_ ∧ _))

/-- The paths one top-level entry contributes to the ResourceList of the
specification: `resources/X` for an `.html` file `X`, and
`resources/D/X` for every `.html` file `X` directly inside a directory `D`, in
listing order. -/
def entryPaths : Dirent → List Str
  | Dirent.file name _ =>
    if endsWith name ".html".toList then ["resources/".toList ++ name] else []
  | Dirent.dir name (some entries) =>
    (entries.filter Dirent.isHtmlFile).map fun s => "resources/".toList ++ name ++ '/' :: s.name
  | _ => []

/-- The ResourceList of the specification for a listing of the output
directory: the contributions of the top-level entries in listing order. -/
def resourceList (files : List Dirent) : List Str := files.flatMap entryPaths

/-! ## What the pattern of the index update matches -/

/-- A text the pattern of line 152 matches as a whole: the literal head,
then characters none of which is a line terminator, then `;`. -/
def IsPageArrayDecl (m : Str) : Prop :=
  ∃ body : Str, m = pageArrayHead ++ body ++ [';'] ∧ ∀ c ∈ body, isLineTerminator c = false

/-- The text `matched` is the first match of the pattern in `text`, with
`before` in front of it and `after` behind it: no match starts further left,
and no match starting at the same place is longer. -/
def IsFirstMatch (text before matched after : Str) : Prop :=
  text = before ++ matched ++ after ∧ IsPageArrayDecl matched ∧
  (∀ b m a : Str, text = b ++ m ++ a → IsPageArrayDecl m → before.length ≤ b.length) ∧
  (∀ m a : Str, matched ++ after = m ++ a → IsPageArrayDecl m → m.length ≤ matched.length)

/-! ## Observations on runs and pages -/

/-- Whether an event is a call of `generateIMSManifest` or of
`updateIndexHTML`. -/
def Event.isStageCall : Event → Bool
  | Event.generateIMSManifest _ => true
  | Event.updateIndexHTML _ => true
  | _ => false

/-- Whether converting one entry of the directory an invocation walks raises
an error, read off the file system: the `mkdir` for a directory fails, or the
`readFile` or the `writeFile` for a Markdown file fails.  What happens inside
the recursive invocation for a directory plays no part. -/
def entryFails (env : Env) (outputDir : Str) : Dirent → Bool
  | Dirent.dir name _ => !env.mkdirOk (pathJoin [outputDir, outputName name])
  | Dirent.file name data =>
    endsWith name ".md".toList &&
      (data.isNone || !env.writeOk (pathJoin [outputDir, outputName name]))
  | Dirent.other _ => false

/-- Whether Tree Conversion fails in the directory an invocation walks, read
off the file system: the `readdir` of the directory fails, or converting one
of its entries raises an error. -/
def conversionError (env : Env) (outputDir : Str) : Option (List Dirent) → Bool
  | none => true
  | some files => files.any (entryFails env outputDir)

/-- An environment in which every `mkdir` and every `writeFile` succeeds and
the renderer wraps the text in a paragraph. -/
def okEnv : Env where
  mkdirOk := fun _ => true
  writeOk := fun _ => true
  render := fun text => "<p>".toList ++ text ++ "</p>\n".toList

/-- An environment in which every `mkdir` fails. -/
def mkdirFailsEnv : Env where
  mkdirOk := fun _ => false
  writeOk := fun _ => true
  render := fun text => "<p>".toList ++ text ++ "</p>\n".toList

/-- An environment in which every `writeFile` fails. -/
def writeFailsEnv : Env where
  mkdirOk := fun _ => true
  writeOk := fun _ => false
  render := fun text => "<p>".toList ++ text ++ "</p>\n".toList

/-- The text between the first `opening` and the next `closing` in a string. -/
def textBetween (opening closing s : Str) : Option Str :=
  match splitFirst opening s with
  | none => none
  | some (_, rest) =>
    match splitFirst closing rest with
    | none => none
    | some (inner, _) => some inner

/-- The page the specification describes for a title and a rendered fragment:
the template with the title in place of the first title placeholder and the
fragment, verbatim, in place of the content placeholder of the template. -/
def expectedPage (title fragment : Str) : Str :=
  match splitFirst titleSlot template with
  | none => template
  | some (head, rest) =>
    match splitFirst contentSlot rest with
    | none => head ++ title ++ rest
    | some (middle, tail) => head ++ title ++ middle ++ fragment ++ tail

/-- The output tree of the example of the specification:
`resources/intro.html` and `resources/guide/setup.html`, next to entries a
scan leaves out. -/
def exampleOutput : List Dirent :=
  [Dirent.file "intro.html".toList (some "<p>i</p>".toList),
   Dirent.dir "guide".toList (some
     [Dirent.file "setup.html".toList (some "<p>s</p>".toList),
      Dirent.file "notes.txt".toList none,
      Dirent.dir "deep".toList (some [Dirent.file "far.html".toList none]),
      Dirent.dir "odd.html".toList (some [])]),
   Dirent.other "link.html".toList,
   Dirent.file "styles.css".toList none,
   Dirent.dir "empty.html".toList (some [])]

/-- The paths a scan collects for one top-level entry, as the code computes
them. -/
def scannedPaths : Dirent → List Str
  | Dirent.file name _ =>
    if endsWith name ".html".toList then [pathJoin ["resources".toList, name]] else []
  | Dirent.dir name (some entries) =>
    (entries.filter Dirent.isHtmlFile).map fun s => pathJoin ["resources".toList, name, s.name]
  | _ => []

/-! # Theorems -/

set_option maxRecDepth 100000

/-! ## Paths -/

theorem splitOnSlash_ne_nil (s : Str) : splitOnSlash s ≠ [] := by
  induction s with
  | nil => simp [splitOnSlash]
  | cons c cs ih =>
    unfold splitOnSlash
    split_ifs
    · simp
    · cases h : splitOnSlash cs <;> simp

theorem splitOnSlash_of_not_mem (s : Str) (h : '/' ∉ s) : splitOnSlash s = [s] := by
  induction s with
  | nil => simp [splitOnSlash]
  | cons c cs ih =>
    simp only [List.mem_cons, not_or] at h
    have hc : c ≠ '/' := fun e => h.1 e.symm
    simp [splitOnSlash, hc, ih h.2]

theorem splitOnSlash_append (a b : Str) (h : '/' ∉ a) :
    splitOnSlash (a ++ '/' :: b) = a :: splitOnSlash b := by
  induction a with
  | nil => simp [splitOnSlash]
  | cons c cs ih =>
    simp only [List.mem_cons, not_or] at h
    have hc : c ≠ '/' := fun e => h.1 e.symm
    simp [splitOnSlash, hc, ih h.2]

theorem validName_iff (name : Str) :
    validName name = true ↔ name ≠ [] ∧ '/' ∉ name ∧ name ≠ ['.'] ∧ name ≠ ['.', '.'] := by
  simp [validName, and_assoc]

theorem normalizeStep_valid (b : Bool) (stack : List Str) (seg : Str) (h : validName seg = true) :
    normalizeStep b stack seg = seg :: stack := by
  obtain ⟨h1, _, h3, h4⟩ := (validName_iff seg).1 h
  simp [normalizeStep, h1, h3, h4]

theorem getLast?_ne_slash (a name : Str) (h : validName name = true) :
    (a ++ name).getLast? ≠ some '/' := by
  obtain ⟨h1, h2, _, _⟩ := (validName_iff name).1 h
  rw [List.getLast?_append_of_ne_nil _ h1]
  intro e
  exact h2 (List.mem_of_getLast?_eq_some e)

theorem intercalate_cons_cons (a b : Str) (l : List Str) :
    List.intercalate ['/'] (a :: b :: l) = a ++ '/' :: List.intercalate ['/'] (b :: l) := by
  simp [List.intercalate, List.intersperse]

theorem splitOnSlash_intercalate (segs : List Str) (hne : segs ≠ [])
    (h : ∀ s ∈ segs, validName s = true) :
    splitOnSlash (List.intercalate ['/'] segs) = segs := by
  induction segs with
  | nil => exact absurd rfl hne
  | cons a l ih =>
    have ha := ((validName_iff a).1 (h a (List.mem_cons_self _ _))).2.1
    cases l with
    | nil => simpa [List.intercalate, List.intersperse] using splitOnSlash_of_not_mem a ha
    | cons b l =>
      rw [intercalate_cons_cons, splitOnSlash_append _ _ ha,
        ih (by simp) (fun s hs => h s (List.mem_cons_of_mem _ hs))]

theorem foldl_normalizeStep_valid (b : Bool) (segs stack : List Str)
    (h : ∀ s ∈ segs, validName s = true) :
    segs.foldl (normalizeStep b) stack = segs.reverse ++ stack := by
  induction segs generalizing stack with
  | nil => simp
  | cons a l ih =>
    rw [List.foldl_cons, normalizeStep_valid b stack a (h a (List.mem_cons_self _ _)),
      ih _ (fun s hs => h s (List.mem_cons_of_mem _ hs))]
    simp

theorem intercalate_getLast? (segs : List Str) (hne : segs ≠ [])
    (h : ∀ s ∈ segs, validName s = true) :
    (List.intercalate ['/'] segs).getLast? ≠ some '/' := by
  induction segs with
  | nil => exact absurd rfl hne
  | cons a l ih =>
    cases l with
    | nil =>
      simpa [List.intercalate, List.intersperse] using
        getLast?_ne_slash [] a (h a (List.mem_cons_self _ _))
    | cons b l =>
      rw [intercalate_cons_cons]
      have hb := ih (by simp) (fun s hs => h s (List.mem_cons_of_mem _ hs))
      have hne2 : List.intercalate ['/'] (b :: l) ≠ [] := by
        intro e
        have := splitOnSlash_intercalate (b :: l) (by simp)
          (fun s hs => h s (List.mem_cons_of_mem _ hs))
        rw [e] at this
        have hb1 := ((validName_iff b).1 (h b (by simp))).1
        simp [splitOnSlash] at this
        exact hb1 this.1
      have : a ++ '/' :: List.intercalate ['/'] (b :: l)
          = (a ++ ['/']) ++ List.intercalate ['/'] (b :: l) := by simp
      rw [this, List.getLast?_append_of_ne_nil _ hne2]
      exact hb

/-- For names as `readdir` returns them, `path.join` is concatenation with `/`. -/
theorem pathJoin_valid (segs : List Str) (hne : segs ≠ [])
    (h : ∀ s ∈ segs, validName s = true) :
    pathJoin segs = List.intercalate ['/'] segs := by
  have hfilter : segs.filter (fun a => decide (a ≠ [])) = segs := by
    rw [List.filter_eq_self]
    intro s hs
    simpa using ((validName_iff s).1 (h s hs)).1
  obtain ⟨a, l, rfl⟩ : ∃ a l, segs = a :: l := by
    cases segs with
    | nil => exact absurd rfl hne
    | cons a l => exact ⟨a, l, rfl⟩
  obtain ⟨ha1, ha2, _, _⟩ := (validName_iff a).1 (h a (List.mem_cons_self _ _))
  have hhead : (List.intercalate ['/'] (a :: l)).head? ≠ some '/' := by
    cases a with
    | nil => exact absurd rfl ha1
    | cons c cs =>
      have hc : c ≠ '/' := fun e => ha2 (by simp [e])
      cases l <;> simp [List.intercalate, List.intersperse, hc]
  have hlast := intercalate_getLast? (a :: l) hne h
  have hsplit := splitOnSlash_intercalate (a :: l) hne h
  have hnonempty : List.intercalate ['/'] (a :: l) ≠ [] := by
    intro e
    rw [e] at hsplit
    simp [splitOnSlash] at hsplit
    exact ha1 hsplit.1
  unfold pathJoin
  rw [hfilter]
  simp only [normalize, hnonempty, hhead, hlast, hsplit, if_false, decide_False, Bool.not_false,
    foldl_normalizeStep_valid true (a :: l) [] h, List.append_nil, List.reverse_reverse]

theorem pathJoin_two (name : Str) (h : validName name = true) :
    pathJoin ["resources".toList, name] = "resources/".toList ++ name := by
  rw [pathJoin_valid _ (by simp) (by
    intro s hs
    simp only [List.mem_cons, List.mem_singleton, List.not_mem_nil, or_false] at hs
    rcases hs with rfl | rfl
    · decide
    · exact h)]
  simp [List.intercalate, List.intersperse]

theorem pathJoin_three (dirName name : Str) (hd : validName dirName = true)
    (h : validName name = true) :
    pathJoin ["resources".toList, dirName, name]
      = "resources/".toList ++ dirName ++ '/' :: name := by
  rw [pathJoin_valid _ (by simp) (by
    intro s hs
    simp only [List.mem_cons, List.mem_singleton, List.not_mem_nil, or_false] at hs
    rcases hs with rfl | rfl | rfl
    · decide
    · exact hd
    · exact h)]
  simp [List.intercalate, List.intersperse]

/-! ## The two scans -/


theorem pageArraySubLoop_eq (dirName : Str) (entries : List Dirent) (pageArray : List Str) :
    pageArraySubLoop dirName pageArray entries
      = pageArray ++ (entries.filter Dirent.isHtmlFile).map
          fun s => pathJoin ["resources".toList, dirName, s.name] := by
  induction entries generalizing pageArray with
  | nil => simp [pageArraySubLoop]
  | cons e rest ih =>
    cases e with
    | file name data =>
      by_cases h : endsWith name ".html".toList = true <;> simp only [String.toList] at h
      · simp [pageArraySubLoop, h, ih, Dirent.isHtmlFile, Dirent.name]
      · simp [pageArraySubLoop, h, ih, Dirent.isHtmlFile]
    | dir name entries => simp [pageArraySubLoop, ih, Dirent.isHtmlFile]
    | other name => simp [pageArraySubLoop, ih, Dirent.isHtmlFile]

theorem manifestSubLoop_eq (dirName : Str) (entries : List Dirent) (resources : Str) :
    manifestSubLoop dirName resources entries
      = resources ++ (((entries.filter Dirent.isHtmlFile).map
            fun s => pathJoin ["resources".toList, dirName, s.name]).map fileTag).flatten := by
  induction entries generalizing resources with
  | nil => simp [manifestSubLoop]
  | cons e rest ih =>
    cases e with
    | file name data =>
      by_cases h : endsWith name ".html".toList = true <;> simp only [String.toList] at h
      · simp [manifestSubLoop, h, ih, Dirent.isHtmlFile, Dirent.name]
      · simp [manifestSubLoop, h, ih, Dirent.isHtmlFile]
    | dir name entries => simp [manifestSubLoop, ih, Dirent.isHtmlFile]
    | other name => simp [manifestSubLoop, ih, Dirent.isHtmlFile]

theorem pageArrayLoop_eq (files : List Dirent) (pageArray : List Str) :
    pageArrayLoop pageArray files
      = if allReadable files = true then some (pageArray ++ files.flatMap scannedPaths)
        else none := by
  induction files generalizing pageArray with
  | nil => simp [pageArrayLoop, allReadable]
  | cons e rest ih =>
    cases e with
    | file name data =>
      by_cases h : endsWith name ".html".toList = true <;> simp only [String.toList] at h
      · simp [pageArrayLoop, h, ih, scannedPaths, allReadable, Dirent.readable]
      · simp [pageArrayLoop, h, ih, scannedPaths, allReadable, Dirent.readable]
    | dir name entries =>
      cases entries with
      | none => simp [pageArrayLoop, allReadable, Dirent.readable]
      | some entries =>
        simp [pageArrayLoop, ih, scannedPaths, allReadable, Dirent.readable, pageArraySubLoop_eq]
    | other name => simp [pageArrayLoop, ih, scannedPaths, allReadable, Dirent.readable]

theorem manifestLoop_eq (files : List Dirent) (resources : Str) :
    manifestLoop resources files
      = if allReadable files = true then
          some (resources ++ ((files.flatMap scannedPaths).map fileTag).flatten)
        else none := by
  induction files generalizing resources with
  | nil => simp [manifestLoop, allReadable]
  | cons e rest ih =>
    cases e with
    | file name data =>
      by_cases h : endsWith name ".html".toList = true <;> simp only [String.toList] at h
      · simp [manifestLoop, h, ih, scannedPaths, allReadable, Dirent.readable]
      · simp [manifestLoop, h, ih, scannedPaths, allReadable, Dirent.readable]
    | dir name entries =>
      cases entries with
      | none => simp [manifestLoop, allReadable, Dirent.readable]
      | some entries =>
        simp [manifestLoop, ih, scannedPaths, allReadable, Dirent.readable, manifestSubLoop_eq]
    | other name => simp [manifestLoop, ih, scannedPaths, allReadable, Dirent.readable]

theorem scannedPaths_eq_entryPaths (e : Dirent)
    (h : (validName e.name && e.children.all fun s => validName s.name) = true) :
    scannedPaths e = entryPaths e := by
  simp only [Bool.and_eq_true, List.all_eq_true] at h
  obtain ⟨hn, hc⟩ := h
  cases e with
  | file name data =>
    simp only [Dirent.name] at hn
    simp only [scannedPaths, entryPaths, pathJoin_two name hn]
  | dir name entries =>
    cases entries with
    | none => simp [scannedPaths, entryPaths]
    | some entries =>
      simp only [Dirent.name] at hn
      simp only [Dirent.children] at hc
      simp only [scannedPaths, entryPaths]
      apply List.map_congr_left
      intro s hs
      rw [pathJoin_three name s.name hn (hc s (List.mem_of_mem_filter hs))]
  | other name => simp [scannedPaths, entryPaths]

theorem flatMap_scannedPaths (files : List Dirent) (h : namesValid files = true) :
    files.flatMap scannedPaths = resourceList files := by
  unfold resourceList
  simp only [namesValid, List.all_eq_true] at h
  induction files with
  | nil => rfl
  | cons e rest ih =>
    simp only [List.flatMap_cons]
    rw [scannedPaths_eq_entryPaths e (h e (List.mem_cons_self _ _)),
      ih (fun x hx => h x (List.mem_cons_of_mem _ hx))]

theorem mem_entryPaths (e : Dirent) (p : Str) :
    p ∈ entryPaths e ↔
      (∃ X data, e = Dirent.file X data ∧ endsWith X ".html".toList = true ∧
        p = "resources/".toList ++ X) ∨
      (∃ D entries X data, e = Dirent.dir D (some entries) ∧ Dirent.file X data ∈ entries ∧
        endsWith X ".html".toList = true ∧ p = "resources/".toList ++ D ++ '/' :: X) := by
  cases e with
  | file name data =>
    by_cases h : endsWith name ".html".toList = true
    · simp only [entryPaths, h, if_true, List.mem_singleton]
      constructor
      · intro hp
        exact Or.inl ⟨name, data, rfl, h, hp⟩
      · rintro (⟨X, d, he, _, hp⟩ | ⟨D, en, X, d, he, _⟩)
        · cases he
          exact hp
        · cases he
    · rw [entryPaths, if_neg h]
      simp only [List.not_mem_nil, false_iff]
      rintro (⟨X, d, he, hX, _⟩ | ⟨D, en, X, d, he, _⟩)
      · cases he
        exact h hX
      · cases he
  | dir name entries =>
    cases entries with
    | none =>
      simp only [entryPaths, List.not_mem_nil, false_iff]
      rintro (⟨X, d, he, _⟩ | ⟨D, en, X, d, he, _⟩) <;> cases he
    | some entries =>
      simp only [entryPaths, List.mem_map, List.mem_filter]
      constructor
      · rintro ⟨s, ⟨hs, hhtml⟩, rfl⟩
        cases s with
        | file X d => exact Or.inr ⟨name, entries, X, d, rfl, hs, hhtml, rfl⟩
        | dir X d => simp [Dirent.isHtmlFile] at hhtml
        | other X => simp [Dirent.isHtmlFile] at hhtml
      · rintro (⟨X, d, he, _⟩ | ⟨D, en, X, d, he, hs, hX, rfl⟩)
        · cases he
        · cases he
          exact ⟨Dirent.file X d, ⟨hs, hX⟩, rfl⟩
  | other name =>
    simp only [entryPaths, List.not_mem_nil, false_iff]
    rintro (⟨X, d, he, _⟩ | ⟨D, en, X, d, he, _⟩) <;> cases he

theorem mem_resourceList (files : List Dirent) (p : Str) :
    p ∈ resourceList files ↔
      (∃ X data, Dirent.file X data ∈ files ∧ endsWith X ".html".toList = true ∧
        p = "resources/".toList ++ X) ∨
      (∃ D entries X data, Dirent.dir D (some entries) ∈ files ∧ Dirent.file X data ∈ entries ∧
        endsWith X ".html".toList = true ∧ p = "resources/".toList ++ D ++ '/' :: X) := by
  simp only [resourceList, List.mem_flatMap, mem_entryPaths]
  constructor
  · rintro ⟨e, he, (⟨X, d, rfl, h⟩ | ⟨D, en, X, d, rfl, h⟩)⟩
    · exact Or.inl ⟨X, d, he, h⟩
    · exact Or.inr ⟨D, en, X, d, he, h⟩
  · rintro (⟨X, d, he, h⟩ | ⟨D, en, X, d, he, h⟩)
    · exact ⟨_, he, Or.inl ⟨X, d, rfl, h⟩⟩
    · exact ⟨_, he, Or.inr ⟨D, en, X, d, rfl, h⟩⟩

theorem resourceList_prefixed (files : List Dirent) (p : Str) (hp : p ∈ resourceList files) :
    "resources/".toList <+: p := by
  rcases (mem_resourceList files p).1 hp with ⟨X, _, _, _, rfl⟩ | ⟨D, _, X, _, _, _, _, rfl⟩
  · exact List.prefix_append _ _
  · rw [List.append_assoc]
    exact List.prefix_append _ _

theorem takeWhile_not_slash (a rest : Str) (h : '/' ∉ a) :
    (a ++ '/' :: rest).takeWhile (fun c => decide (c ≠ '/')) = a ∧
    a.takeWhile (fun c => decide (c ≠ '/')) = a := by
  induction a with
  | nil => simp
  | cons c cs ih =>
    simp only [List.mem_cons, not_or] at h
    have hc : c ≠ '/' := fun e => h.1 e.symm
    obtain ⟨h1, h2⟩ := ih h.2
    constructor
    · simp only [List.cons_append]
      rw [List.takeWhile_cons_of_pos (by simpa using hc), h1]
    · rw [List.takeWhile_cons_of_pos (by simpa using hc), h2]

/-- A path contributed by an entry with a valid name starts, after
`resources/`, with the name of the entry. -/
theorem firstSegment_entryPaths (e : Dirent) (hn : validName e.name = true)
    (p : Str) (hp : p ∈ entryPaths e) :
    (p.drop 10).takeWhile (fun c => decide (c ≠ '/')) = e.name := by
  have hslash := ((validName_iff _).1 hn).2.1
  rcases (mem_entryPaths e p).1 hp with ⟨X, d, rfl, _, rfl⟩ | ⟨D, en, X, d, rfl, _, _, rfl⟩
  · have e : List.drop 10 ("resources/".toList ++ X) = X := List.drop_left' rfl
    rw [e]
    exact (takeWhile_not_slash X [] hslash).2
  · have e : List.drop 10 ("resources/".toList ++ (D ++ '/' :: X)) = D ++ '/' :: X :=
      List.drop_left' rfl
    rw [List.append_assoc, e]
    exact (takeWhile_not_slash D X hslash).1

theorem entryPaths_nodup (e : Dirent) (hd : (e.children.map Dirent.name).Nodup) :
    (entryPaths e).Nodup := by
  cases e with
  | file name data =>
    simp only [entryPaths]
    split_ifs <;> simp
  | dir name entries =>
    cases entries with
    | none => simp [entryPaths]
    | some entries =>
      simp only [Dirent.children] at hd
      simp only [entryPaths]
      have h1 : ((entries.filter Dirent.isHtmlFile).map Dirent.name).Nodup :=
        hd.sublist ((List.filter_sublist _).map _)
      have h2 : (((entries.filter Dirent.isHtmlFile).map Dirent.name).map
          fun n => "resources/".toList ++ name ++ '/' :: n).Nodup :=
        List.Nodup.map (fun a b hab => by simpa using hab) h1
      simpa [List.map_map] using h2
  | other name => simp [entryPaths]

theorem resourceList_nodup (files : List Dirent) (hn : namesValid files = true)
    (hd : distinctNames files) : (resourceList files).Nodup := by
  simp only [namesValid, List.all_eq_true, Bool.and_eq_true] at hn
  obtain ⟨hd1, hd2⟩ := hd
  unfold resourceList
  rw [List.nodup_flatMap]
  refine ⟨fun e he => entryPaths_nodup e (hd2 e he), ?_⟩
  have hpw : files.Pairwise (fun a b => a.name ≠ b.name) := by
    simpa [List.Nodup, List.pairwise_map] using hd1
  refine hpw.imp_of_mem ?_
  intro a b ha hb hab
  simp only [Function.onFun]
  rw [List.disjoint_left]
  intro p hpa hpb
  apply hab
  rw [← firstSegment_entryPaths a (hn a ha).1 p hpa, ← firstSegment_entryPaths b (hn b hb).1 p hpb]

/-- C5, amended: for a listing of the output directory with names as `readdir`
returns them, no name twice in a directory and every top-level directory
listable, the manifest `generateIMSManifest` writes is the fixed head, then
one line `<file href="P" />` for each path `P` of a duplicate-free sequence,
then the fixed tail with the three auxiliary entries; and a path is in the
sequence exactly when it is `resources/X` for a top-level file `X` ending in
`.html` or `resources/D/X` for a file `X` ending in `.html` directly inside a
top-level directory `D`. -/
theorem manifest_hrefs_exact (files : List Dirent) (hn : namesValid files = true)
    (hd : distinctNames files) (hr : allReadable files = true) :
    ∃ hrefs : List Str,
      generateIMSManifest (some files) = some (
        ("<?xml version=\"1.0\" standalone=\"no\"?>\n" ++
         "<manifest identifier=\"com.scorm.golfsamples.runtime.basicruntime.12\" version=\"1\"\n" ++
         "  xmlns=\"http://www.imsproject.org/xsd/imscp_rootv1p1p2\"\n" ++
         "  xmlns:adlcp=\"http://www.adlnet.org/xsd/adlcp_rootv1p2\"\n" ++
         "  xmlns:xsi=\"http://www.w3.org/2001/XMLSchema-instance\"\n" ++
         "  xsi:schemaLocation=\"http://www.imsproject.org/xsd/imscp_rootv1p1p2 imscp_rootv1p1p2.xsd\n" ++
         "                      http://www.imsglobal.org/xsd/imsmd_rootv1p2p1 imsmd_rootv1p2p1.xsd\n" ++
         "                      http://www.adlnet.org/xsd/adlcp_rootv1p2 adlcp_rootv1p2.xsd\">\n" ++
         "\n" ++
         "  <metadata>\n" ++
         "    <schema>ADL SCORM</schema>\n" ++
         "    <schemaversion>1.2</schemaversion>\n" ++
         "  </metadata>\n" ++
         "  <organizations default=\"four_geeks_academy_org\">\n" ++
         "    <organization identifier=\"four_geeks_academy_org\">\n" ++
         "      <title>Prompt Engineering Course</title>\n" ++
         "      <item identifier=\"item_1\" identifierref=\"resource\">\n" ++
         "        <title>Prompt Engineering</title>\n" ++
         "      </item>\n" ++
         "    </organization>\n" ++
         "  </organizations>\n" ++
         "  <resources>\n" ++
         "    <resource identifier=\"resource\" type=\"webcontent\" adlcp:scormtype=\"sco\"\n" ++
         "      href=\"config/index.html\">\n" ++
         "      ").toList ++
        (hrefs.map fun p => "<file href=\"".toList ++ p ++ "\" />\n".toList).flatten ++
        ("\n" ++
         "      <file href=\"config/index.html\" />\n" ++
         "      <file href=\"config/api.js\" />\n" ++
         "      <file href=\"resources/styles/styles.css\" />\n" ++
         "    </resource>\n" ++
         "  </resources>\n" ++
         "</manifest>").toList) ∧
      hrefs.Nodup ∧
      ∀ p : Str, p ∈ hrefs ↔
        (∃ X data, Dirent.file X data ∈ files ∧ endsWith X ".html".toList = true ∧
          p = "resources/".toList ++ X) ∨
        (∃ D entries X data, Dirent.dir D (some entries) ∈ files ∧
          Dirent.file X data ∈ entries ∧ endsWith X ".html".toList = true ∧
          p = "resources/".toList ++ D ++ '/' :: X) := by
  refine ⟨resourceList files, ?_, resourceList_nodup files hn hd, mem_resourceList files⟩
  rw [generateIMSManifest, manifestLoop_eq, if_pos hr, flatMap_scannedPaths files hn]
  rfl

/-- C10: for every listing, the `resources` text of the manifest is the list
`updateIndexHTML` builds, rendered in the same order as one line
`<file href="P" />` per path `P`, and that text is what `generateIMSManifest`
puts into the manifest it writes (both scans fail together when a top-level
directory cannot be listed); the list is what `updateIndexHTML` serialises
into the index; and for names as `readdir` returns them the list is the
contributions of the top-level entries in listing order, every path starting
with `resources/`. -/
theorem pageArray_eq_manifest_hrefs (files : List Dirent) :
    manifestLoop [] files
      = (pageArrayLoop [] files).map (fun pageArray =>
          (pageArray.map fun p => "<file href=\"".toList ++ p ++ "\" />\n".toList).flatten) ∧
    generateIMSManifest (some files)
      = (pageArrayLoop [] files).map (fun pageArray =>
          manifestContent
            (pageArray.map fun p => "<file href=\"".toList ++ p ++ "\" />\n".toList).flatten) ∧
    (∀ indexContent : Str,
      updateIndexHTML (some files) (some indexContent)
        = (pageArrayLoop [] files).map fun pageArray =>
            replacePageArray indexContent (pageArrayString pageArray)) ∧
    (namesValid files = true →
      pageArrayLoop [] files
        = (if allReadable files = true then some (files.flatMap entryPaths) else none) ∧
      ∀ p ∈ files.flatMap entryPaths, "resources/".toList <+: p) := by
  refine ⟨?_, ?_, fun indexContent => ?_, fun hn => ⟨?_, ?_⟩⟩
  · rw [manifestLoop_eq, pageArrayLoop_eq]
    split_ifs
    · simp only [List.nil_append, Option.map_some']
      rfl
    · rfl
  · rw [generateIMSManifest, manifestLoop_eq, pageArrayLoop_eq]
    split_ifs
    · simp only [List.nil_append, Option.map_some']
      rfl
    · rfl
  · rw [updateIndexHTML]
    cases pageArrayLoop [] files <;> rfl
  · rw [pageArrayLoop_eq, flatMap_scannedPaths files hn]
    rfl
  · exact resourceList_prefixed files

/-! ## The pattern of the index update -/

theorem matchDotStarSemi_sound (s : Str) (n : Nat) (h : matchDotStarSemi s = some n) :
    ∃ body rest : Str, s = body ++ ';' :: rest ∧ (∀ c ∈ body, isLineTerminator c = false) ∧
      n = body.length + 1 := by
  induction s generalizing n with
  | nil => simp [matchDotStarSemi] at h
  | cons c cs ih =>
    rw [matchDotStarSemi] at h
    by_cases hlt : isLineTerminator c = true
    · simp [hlt] at h
    · rw [if_neg hlt] at h
      cases hrec : matchDotStarSemi cs with
      | some k =>
        rw [hrec] at h
        simp only [Option.some.injEq] at h
        obtain ⟨body, rest, hs, hb, hk⟩ := ih k hrec
        refine ⟨c :: body, rest, by simp [hs], ?_, by simp; omega⟩
        intro x hx
        rcases List.mem_cons.1 hx with rfl | hx
        · simpa using hlt
        · exact hb x hx
      | none =>
        rw [hrec] at h
        simp only at h
        by_cases hc : c = ';'
        · rw [if_pos hc] at h
          simp only [Option.some.injEq] at h
          exact ⟨[], cs, by simp [hc], by simp, by simp [← h]⟩
        · simp [hc] at h

theorem matchDotStarSemi_max (s : Str) (body rest : Str) (hs : s = body ++ ';' :: rest)
    (hb : ∀ c ∈ body, isLineTerminator c = false) :
    ∃ n, matchDotStarSemi s = some n ∧ body.length + 1 ≤ n := by
  induction body generalizing s with
  | nil =>
    subst hs
    simp only [List.nil_append, matchDotStarSemi]
    have : isLineTerminator ';' = false := by decide
    simp only [this, Bool.false_eq_true, if_false]
    cases hrec : matchDotStarSemi rest with
    | some k => exact ⟨k + 1, rfl, by simp⟩
    | none => exact ⟨1, by simp, by simp⟩
  | cons c body ih =>
    subst hs
    obtain ⟨k, hk, hle⟩ := ih (body ++ ';' :: rest) rfl (fun x hx => hb x (List.mem_cons_of_mem _ hx))
    have hc : isLineTerminator c = false := hb c (List.mem_cons_self _ _)
    refine ⟨k + 1, ?_, by simp; omega⟩
    simp [matchDotStarSemi, hc, hk]

theorem isPrefixOf_head (s : Str) :
    pageArrayHead.isPrefixOf s = true ↔ ∃ r, s = pageArrayHead ++ r := by
  rw [List.isPrefixOf_iff_prefix]
  constructor
  · rintro ⟨r, hr⟩
    exact ⟨r, hr.symm⟩
  · rintro ⟨r, hr⟩
    exact ⟨r, hr.symm⟩

theorem matchPageArrayAt_some (s : Str) (n : Nat) (h : matchPageArrayAt s = some n) :
    (∃ m a : Str, s = m ++ a ∧ m.length = n ∧ IsPageArrayDecl m) ∧
    ∀ m a : Str, s = m ++ a → IsPageArrayDecl m → m.length ≤ n := by
  unfold matchPageArrayAt at h
  split_ifs at h with hp
  obtain ⟨r, rfl⟩ := (isPrefixOf_head s).1 hp
  rw [List.drop_left] at h
  cases hk : matchDotStarSemi r with
  | none => simp [hk] at h
  | some k =>
    rw [hk] at h
    simp only [Option.map_some', Option.some.injEq] at h
    obtain ⟨body, rest, hr, hb, hkk⟩ := matchDotStarSemi_sound r k hk
    constructor
    · refine ⟨pageArrayHead ++ body ++ [';'], rest, by simp [hr], ?_, body, rfl, hb⟩
      simp
      omega
    · rintro m a hs ⟨body2, rfl, hb2⟩
      have hr2 : r = body2 ++ ';' :: a := by
        have : pageArrayHead ++ r = pageArrayHead ++ (body2 ++ ';' :: a) := by
          rw [hs]; simp
        exact List.append_cancel_left this
      obtain ⟨k2, hk2, hle⟩ := matchDotStarSemi_max r body2 a hr2 hb2
      rw [hk] at hk2
      simp only [Option.some.injEq] at hk2
      simp
      omega

theorem matchPageArrayAt_none (s : Str) (h : matchPageArrayAt s = none) (m a : Str)
    (hs : s = m ++ a) : ¬ IsPageArrayDecl m := by
  rintro ⟨body, rfl, hb⟩
  unfold matchPageArrayAt at h
  have hp : pageArrayHead.isPrefixOf s = true :=
    (isPrefixOf_head s).2 ⟨body ++ ';' :: a, by rw [hs]; simp⟩
  rw [if_pos hp] at h
  obtain ⟨k, hk, -⟩ := matchDotStarSemi_max (s.drop pageArrayHead.length) body a
    (by rw [hs]; simp [List.append_assoc]) hb
  rw [hk] at h
  simp at h

theorem IsPageArrayDecl.ne_nil {m : Str} (h : IsPageArrayDecl m) : m ≠ [] := by
  obtain ⟨body, rfl, -⟩ := h
  simp

theorem searchPageArray_none (text : Str) (h : searchPageArray text = none) :
    ¬ ∃ b m a : Str, text = b ++ m ++ a ∧ IsPageArrayDecl m := by
  induction text with
  | nil =>
    rintro ⟨b, m, a, ht, hm⟩
    have := hm.ne_nil
    simp at ht
    exact this ht.2.1
  | cons c cs ih =>
    simp only [searchPageArray] at h
    cases hat : matchPageArrayAt (c :: cs) with
    | some n => simp [hat] at h
    | none =>
      rw [hat] at h
      simp only at h
      cases hrec : searchPageArray cs with
      | some r => simp [hrec] at h
      | none =>
        rintro ⟨b, m, a, ht, hm⟩
        cases b with
        | nil => exact matchPageArrayAt_none _ hat m a (by simpa using ht) hm
        | cons x b =>
          simp only [List.cons_append, List.cons.injEq] at ht
          exact ih hrec ⟨b, m, a, ht.2, hm⟩

theorem searchPageArray_some (text b m a : Str) (h : searchPageArray text = some (b, m, a)) :
    IsFirstMatch text b m a := by
  induction text generalizing b with
  | nil => simp [searchPageArray] at h
  | cons c cs ih =>
    simp only [searchPageArray] at h
    cases hat : matchPageArrayAt (c :: cs) with
    | some n =>
      rw [hat] at h
      simp only [Option.some.injEq, Prod.mk.injEq] at h
      obtain ⟨rfl, rfl, rfl⟩ := h
      obtain ⟨⟨m, a, hs, hlen, hm⟩, hmax⟩ := matchPageArrayAt_some _ n hat
      have htake : (c :: cs).take n = m := by
        rw [hs, ← hlen]; simp
      have hdrop : (c :: cs).drop n = a := by
        rw [hs, ← hlen]; simp
      rw [htake, hdrop]
      refine ⟨by simpa using hs, hm, by simp, ?_⟩
      intro m2 a2 h2 hm2
      rw [hlen]
      exact hmax m2 a2 (by rw [hs, h2]) hm2
    | none =>
      rw [hat] at h
      simp only at h
      cases hrec : searchPageArray cs with
      | none => simp [hrec] at h
      | some r =>
        obtain ⟨b1, m1, a1⟩ := r
        rw [hrec] at h
        simp only [Option.some.injEq, Prod.mk.injEq] at h
        obtain ⟨rfl, rfl, rfl⟩ := h
        obtain ⟨ht, hm, hleft, hlong⟩ := ih b1 hrec
        refine ⟨by simp [ht], hm, ?_, hlong⟩
        intro b2 m2 a2 h2 hm2
        cases b2 with
        | nil => exact absurd hm2 (matchPageArrayAt_none _ hat m2 a2 (by simpa using h2))
        | cons x b2 =>
          simp only [List.cons_append, List.cons.injEq] at h2
          have := hleft b2 m2 a2 h2.2 hm2
          simp
          omega

theorem IsFirstMatch.unique {text b m a b2 m2 a2 : Str} (h : IsFirstMatch text b m a)
    (h2 : IsFirstMatch text b2 m2 a2) : b = b2 ∧ m = m2 ∧ a = a2 := by
  obtain ⟨ht, hm, hleft, hlong⟩ := h
  obtain ⟨ht2, hm2, hleft2, hlong2⟩ := h2
  have hb : b.length = b2.length :=
    le_antisymm (hleft b2 m2 a2 ht2 hm2) (hleft2 b m a ht hm)
  have e : b ++ (m ++ a) = b2 ++ (m2 ++ a2) := by
    rw [← List.append_assoc, ← List.append_assoc, ← ht, ← ht2]
  obtain ⟨rfl, e2⟩ := List.append_inj e hb
  have hml : m.length = m2.length :=
    le_antisymm (hlong2 m a e2.symm hm) (hlong m2 a2 e2 hm2)
  obtain ⟨rfl, rfl⟩ := List.append_inj e2 hml
  exact ⟨rfl, rfl, rfl⟩

/-- C8: the index rewrite leaves a text without a match of the pattern as it
is; a text with a match has a first match; and for the first match `matched`,
with `before` in front of it and `after` behind it, the match holds no line
terminator and the rewritten text is `before`, then the expansion of the
replacement, then `after`: everything outside the first match, later
`var pageArray = ...;` lines included, is unchanged. -/
theorem index_rewrite_frame (indexContent replacement : Str) :
    ((¬ ∃ b m a : Str, indexContent = b ++ m ++ a ∧ IsPageArrayDecl m) →
      replacePageArray indexContent replacement = indexContent) ∧
    ((∃ b m a : Str, indexContent = b ++ m ++ a ∧ IsPageArrayDecl m) →
      ∃ before matched after : Str, IsFirstMatch indexContent before matched after) ∧
    (∀ before matched after : Str, IsFirstMatch indexContent before matched after →
      (∀ c ∈ matched, isLineTerminator c = false) ∧
      replacePageArray indexContent replacement
        = before ++ getSubstitution matched before after replacement ++ after) := by
  refine ⟨?_, ?_, ?_⟩
  · intro hno
    cases hs : searchPageArray indexContent with
    | none => simp [replacePageArray, hs]
    | some r =>
      obtain ⟨b, m, a⟩ := r
      obtain ⟨ht, hm, -, -⟩ := searchPageArray_some _ _ _ _ hs
      exact absurd ⟨b, m, a, ht, hm⟩ hno
  · intro hex
    cases hs : searchPageArray indexContent with
    | none => exact absurd hex (searchPageArray_none _ hs)
    | some r =>
      obtain ⟨b, m, a⟩ := r
      exact ⟨b, m, a, searchPageArray_some _ _ _ _ hs⟩
  · intro before matched after hfirst
    constructor
    · obtain ⟨-, ⟨body, rfl, hb⟩, -, -⟩ := hfirst
      intro c hc
      simp only [List.mem_append, List.mem_singleton] at hc
      rcases hc with (hc | hc) | rfl
      · revert c
        decide
      · exact hb c hc
      · decide
    · cases hs : searchPageArray indexContent with
      | none =>
        exact absurd ⟨before, matched, after, hfirst.1, hfirst.2.1⟩ (searchPageArray_none _ hs)
      | some r =>
        obtain ⟨b, m, a⟩ := r
        obtain ⟨rfl, rfl, rfl⟩ := (searchPageArray_some _ _ _ _ hs).unique hfirst
        simp [replacePageArray, hs]

/-! ## The tree conversion -/

theorem convertLoop_events (env : Env) (inputDir outputDir : Str) (files : List Dirent) :
    ∀ e ∈ (convertLoop env inputDir outputDir files).1,
      e.isStageCall = false ∧ e ≠ Event.errorLogged := by
  induction files with
  | nil => simp [convertLoop]
  | cons d rest ih =>
    cases d with
    | file name data =>
      cases data with
      | none =>
        simp only [convertLoop]
        split_ifs
        · simp
        · exact ih
      | some text =>
        simp only [convertLoop]
        split_ifs
        · intro e he
          simp only [List.mem_cons] at he
          rcases he with rfl | rfl | he
          · simp [Event.isStageCall]
          · simp [Event.isStageCall]
          · exact ih e he
        · simp
        · exact ih
    | dir name entries =>
      simp only [convertLoop]
      split_ifs
      · intro e he
        simp only [List.mem_cons] at he
        rcases he with rfl | rfl | he
        · simp [Event.isStageCall]
        · simp [Event.isStageCall]
        · exact ih e he
      · simp
    | other name =>
      simp only [convertLoop]
      exact ih

theorem convertLoop_completed (env : Env) (inputDir outputDir : Str) (files : List Dirent) :
    (convertLoop env inputDir outputDir files).2 = !(files.any (entryFails env outputDir)) := by
  induction files with
  | nil => simp [convertLoop]
  | cons d rest ih =>
    cases d with
    | file name data =>
      by_cases h : endsWith name ".md".toList = true <;> simp only [String.toList] at h
      · cases data with
        | none => simp [convertLoop, entryFails, h]
        | some text =>
          by_cases hw : env.writeOk (pathJoin [outputDir, outputName name]) = true
          · simp [convertLoop, entryFails, h, hw, ih]
          · simp [convertLoop, entryFails, h, hw]
      · cases data with
        | none => simp [convertLoop, entryFails, h, ih]
        | some text => simp [convertLoop, entryFails, h, ih]
    | dir name entries =>
      by_cases hmk : env.mkdirOk (pathJoin [outputDir, outputName name]) = true
      · simp [convertLoop, entryFails, hmk, ih]
      · simp [convertLoop, entryFails, hmk]
    | other name => simp [convertLoop, entryFails, ih]

/-- C6, amended: in a run of the script with an input path, if Tree
Conversion fails in the top-level directory (the `readdir` of the input
directory fails, or the `mkdir`, `readFile` or `writeFile` for one of its
entries), the top-level invocation has the logged error as its last event and
calls neither `generateIMSManifest` nor `updateIndexHTML`; if it does not fail
there, whatever happens inside subdirectories, the top-level invocation has
exactly these two calls, on the output directory of the run, as its last two
events. -/
theorem conversion_failure_skips_stages (env : Env) (dirname inputPath : Str)
    (listing : Option (List Dirent)) (hp : inputPath ≠ []) :
    ∃ events : List Event,
      runScript env dirname (some inputPath) listing = some events ∧
      (conversionError env (pathJoin [dirname, "resources".toList]) listing = true →
        events.getLast? = some Event.errorLogged ∧
        ∀ e ∈ events, e.isStageCall = false) ∧
      (conversionError env (pathJoin [dirname, "resources".toList]) listing = false →
        ∃ before : List Event,
          (∀ e ∈ before, e.isStageCall = false ∧ e ≠ Event.errorLogged) ∧
          events = before ++
            [Event.generateIMSManifest (pathJoin [dirname, "resources".toList]),
             Event.updateIndexHTML (pathJoin [dirname, "resources".toList])]) := by
  refine ⟨convertMarkdownToHTML env inputPath (pathJoin [dirname, "resources".toList]) listing,
    by simp only [runScript, if_neg hp], ?_, ?_⟩
  · intro hf
    cases listing with
    | none => simp [convertMarkdownToHTML, Event.isStageCall]
    | some files =>
      have hev := convertLoop_events env inputPath (pathJoin [dirname, "resources".toList]) files
      have hc := convertLoop_completed env inputPath (pathJoin [dirname, "resources".toList]) files
      simp only [conversionError] at hf
      rw [hf] at hc
      rw [convertMarkdownToHTML]
      rcases hloop : convertLoop env inputPath (pathJoin [dirname, "resources".toList]) files
        with ⟨events, completed⟩
      rw [hloop] at hc hev
      simp only [Bool.not_true] at hc
      subst hc
      simp only
      refine ⟨by simp, ?_⟩
      intro e he
      rcases List.mem_append.1 he with he | he
      · exact (hev e he).1
      · simp only [List.mem_singleton] at he
        subst he
        rfl
  · intro hf
    cases listing with
    | none => simp [conversionError] at hf
    | some files =>
      have hev := convertLoop_events env inputPath (pathJoin [dirname, "resources".toList]) files
      have hc := convertLoop_completed env inputPath (pathJoin [dirname, "resources".toList]) files
      simp only [conversionError] at hf
      rw [hf] at hc
      rw [convertMarkdownToHTML]
      rcases hloop : convertLoop env inputPath (pathJoin [dirname, "resources".toList]) files
        with ⟨events, completed⟩
      rw [hloop] at hc hev
      simp only [Bool.not_false] at hc
      subst hc
      exact ⟨events, hev, rfl⟩

/-! ## The code at concrete inputs -/

/-- C2, the code at failing inputs: for the file name `$&.md` the title is `$&`
but the text between `<title>` and `</title>` of the generated page is the
placeholder of the title slot itself, and for `US$$-prices.md` the title is
`US$$ prices` but the page carries `US$ prices`: the title goes through the
`$` patterns of `replace`. -/
theorem title_slot_not_the_title :
    pageTitle "$&.md".toList = "$&".toList ∧
    textBetween "<title>".toList "</title>".toList
        (htmlContent (pageTitle "$&.md".toList) "<p>x</p>\n".toList)
      = some "\x7b\x7btitle\x7d\x7d".toList ∧
    pageTitle "US$$-prices.md".toList = "US$$ prices".toList ∧
    textBetween "<title>".toList "</title>".toList
        (htmlContent (pageTitle "US$$-prices.md".toList) "<p>x</p>\n".toList)
      = some "US$ prices".toList := by
  decide

/-- C3, the code at a failing input: for the title `Intro` and the rendered
fragment `<p>$$x$$</p>` the generated page is the page the specification
describes for the fragment `<p>$x$</p>`, and not the one it describes for the
fragment that was rendered: each `$$` of the fragment comes out as a single
`$`. -/
theorem fragment_not_verbatim :
    htmlContent "Intro".toList "<p>$$x$$</p>\n".toList
      = expectedPage "Intro".toList "<p>$x$</p>\n".toList ∧
    htmlContent "Intro".toList "<p>$$x$$</p>\n".toList
      ≠ expectedPage "Intro".toList "<p>$$x$$</p>\n".toList := by
  decide

/-- C4, the code at a failing input: with the single file `a$$b.html` in the
output directory the scan yields the list with the one path
`resources/a$$b.html`, but the declaration written to the index holds the
array with the one string `resources/a$b.html`. -/
theorem pageArray_dollar_mangled :
    pageArrayLoop [] [Dirent.file "a$$b.html".toList none]
      = some ["resources/a$$b.html".toList] ∧
    updateIndexHTML (some [Dirent.file "a$$b.html".toList none])
        (some "var pageArray = [];".toList)
      = some "var pageArray = [\"resources/a$b.html\"];".toList := by
  decide

/-- C7, the code at a failing input: for the index text `var pageArray = [];`
and the list with the one path `resources/a$&b.html`, rewriting twice does not
give the text that rewriting once gives (each rewrite copies the line it
replaces into the new line). -/
theorem index_rewrite_not_idempotent :
    replacePageArray
        (replacePageArray "var pageArray = [];".toList
          (pageArrayString ["resources/a$&b.html".toList]))
        (pageArrayString ["resources/a$&b.html".toList])
      ≠ replacePageArray "var pageArray = [];".toList
          (pageArrayString ["resources/a$&b.html".toList]) := by
  decide

/-- Witness of C8: a text without a match is returned as it is; a text with
two declarations has a first match; and the rewrite of that text keeps the
text before the first declaration and the text after it, second declaration
included. -/
theorem index_rewrite_frame_witness :
    ((¬ ∃ b m a : Str, "<script>var pages = [];</script>".toList = b ++ m ++ a ∧
        IsPageArrayDecl m) ∧
      replacePageArray "<script>var pages = [];</script>".toList
          (pageArrayString ["resources/intro.html".toList])
        = "<script>var pages = [];</script>".toList) ∧
    ((∃ b m a : Str,
        "<script>\nvar pageArray = [];\nvar pageArray = [1];\n</script>".toList = b ++ m ++ a ∧
        IsPageArrayDecl m) ∧
      ∃ before matched after : Str,
        IsFirstMatch "<script>\nvar pageArray = [];\nvar pageArray = [1];\n</script>".toList
          before matched after) ∧
    (IsFirstMatch "<script>\nvar pageArray = [];\nvar pageArray = [1];\n</script>".toList
        "<script>\n".toList "var pageArray = [];".toList
        "\nvar pageArray = [1];\n</script>".toList ∧
      (∀ c ∈ "var pageArray = [];".toList, isLineTerminator c = false) ∧
      replacePageArray "<script>\nvar pageArray = [];\nvar pageArray = [1];\n</script>".toList
          (pageArrayString ["resources/intro.html".toList])
        = "<script>\n".toList ++ getSubstitution "var pageArray = [];".toList "<script>\n".toList
            "\nvar pageArray = [1];\n</script>".toList
            (pageArrayString ["resources/intro.html".toList])
          ++ "\nvar pageArray = [1];\n</script>".toList) :=
  have hnone : ¬ ∃ b m a : Str, "<script>var pages = [];</script>".toList = b ++ m ++ a ∧
      IsPageArrayDecl m := searchPageArray_none _ (by decide)
  have hsome : ∃ b m a : Str,
      "<script>\nvar pageArray = [];\nvar pageArray = [1];\n</script>".toList = b ++ m ++ a ∧
      IsPageArrayDecl m :=
    ⟨"<script>\n".toList, "var pageArray = [];".toList,
      "\nvar pageArray = [1];\n</script>".toList, by decide, "[]".toList, by decide, by decide⟩
  have hfirst : IsFirstMatch
      "<script>\nvar pageArray = [];\nvar pageArray = [1];\n</script>".toList
      "<script>\n".toList "var pageArray = [];".toList
      "\nvar pageArray = [1];\n</script>".toList := searchPageArray_some _ _ _ _ (by decide)
  ⟨⟨hnone, (index_rewrite_frame _ _).1 hnone⟩,
   ⟨hsome, (index_rewrite_frame _ []).2.1 hsome⟩,
   ⟨hfirst, (index_rewrite_frame _ _).2.2 _ _ _ hfirst⟩⟩

/-- C5 as stated fails: in a listing whose top-level directory `drafts`
cannot be listed, the scan throws, the `catch` logs the error and no manifest
is written, so the top-level file `intro.html` gets no entry. -/
theorem unlistable_subdirectory_no_manifest :
    namesValid [Dirent.dir "drafts".toList none, Dirent.file "intro.html".toList none] = true ∧
    distinctNames [Dirent.dir "drafts".toList none, Dirent.file "intro.html".toList none] ∧
    manifestLoop [] [Dirent.dir "drafts".toList none, Dirent.file "intro.html".toList none]
      = none ∧
    generateIMSManifest
        (some [Dirent.dir "drafts".toList none, Dirent.file "intro.html".toList none])
      = none := by
  decide

/-- Witness of C5, amended: the example output tree meets the three
conditions; the manifest written for it, in full, lists
`resources/intro.html` and `resources/guide/setup.html` and nothing else
before the three auxiliary entries. -/
theorem manifest_hrefs_exact_witness :
    (namesValid exampleOutput = true ∧ distinctNames exampleOutput ∧
      allReadable exampleOutput = true) ∧
    generateIMSManifest (some exampleOutput) = some
        ("<?xml version=\"1.0\" standalone=\"no\"?>\n" ++
         "<manifest identifier=\"com.scorm.golfsamples.runtime.basicruntime.12\" version=\"1\"\n" ++
         "  xmlns=\"http://www.imsproject.org/xsd/imscp_rootv1p1p2\"\n" ++
         "  xmlns:adlcp=\"http://www.adlnet.org/xsd/adlcp_rootv1p2\"\n" ++
         "  xmlns:xsi=\"http://www.w3.org/2001/XMLSchema-instance\"\n" ++
         "  xsi:schemaLocation=\"http://www.imsproject.org/xsd/imscp_rootv1p1p2 imscp_rootv1p1p2.xsd\n" ++
         "                      http://www.imsglobal.org/xsd/imsmd_rootv1p2p1 imsmd_rootv1p2p1.xsd\n" ++
         "                      http://www.adlnet.org/xsd/adlcp_rootv1p2 adlcp_rootv1p2.xsd\">\n" ++
         "\n" ++
         "  <metadata>\n" ++
         "    <schema>ADL SCORM</schema>\n" ++
         "    <schemaversion>1.2</schemaversion>\n" ++
         "  </metadata>\n" ++
         "  <organizations default=\"four_geeks_academy_org\">\n" ++
         "    <organization identifier=\"four_geeks_academy_org\">\n" ++
         "      <title>Prompt Engineering Course</title>\n" ++
         "      <item identifier=\"item_1\" identifierref=\"resource\">\n" ++
         "        <title>Prompt Engineering</title>\n" ++
         "      </item>\n" ++
         "    </organization>\n" ++
         "  </organizations>\n" ++
         "  <resources>\n" ++
         "    <resource identifier=\"resource\" type=\"webcontent\" adlcp:scormtype=\"sco\"\n" ++
         "      href=\"config/index.html\">\n" ++
         "      <file href=\"resources/intro.html\" />\n" ++
         "<file href=\"resources/guide/setup.html\" />\n" ++
         "\n" ++
         "      <file href=\"config/index.html\" />\n" ++
         "      <file href=\"config/api.js\" />\n" ++
         "      <file href=\"resources/styles/styles.css\" />\n" ++
         "    </resource>\n" ++
         "  </resources>\n" ++
         "</manifest>").toList ∧
    ∃ hrefs : List Str,
      generateIMSManifest (some exampleOutput) = some (
        ("<?xml version=\"1.0\" standalone=\"no\"?>\n" ++
         "<manifest identifier=\"com.scorm.golfsamples.runtime.basicruntime.12\" version=\"1\"\n" ++
         "  xmlns=\"http://www.imsproject.org/xsd/imscp_rootv1p1p2\"\n" ++
         "  xmlns:adlcp=\"http://www.adlnet.org/xsd/adlcp_rootv1p2\"\n" ++
         "  xmlns:xsi=\"http://www.w3.org/2001/XMLSchema-instance\"\n" ++
         "  xsi:schemaLocation=\"http://www.imsproject.org/xsd/imscp_rootv1p1p2 imscp_rootv1p1p2.xsd\n" ++
         "                      http://www.imsglobal.org/xsd/imsmd_rootv1p2p1 imsmd_rootv1p2p1.xsd\n" ++
         "                      http://www.adlnet.org/xsd/adlcp_rootv1p2 adlcp_rootv1p2.xsd\">\n" ++
         "\n" ++
         "  <metadata>\n" ++
         "    <schema>ADL SCORM</schema>\n" ++
         "    <schemaversion>1.2</schemaversion>\n" ++
         "  </metadata>\n" ++
         "  <organizations default=\"four_geeks_academy_org\">\n" ++
         "    <organization identifier=\"four_geeks_academy_org\">\n" ++
         "      <title>Prompt Engineering Course</title>\n" ++
         "      <item identifier=\"item_1\" identifierref=\"resource\">\n" ++
         "        <title>Prompt Engineering</title>\n" ++
         "      </item>\n" ++
         "    </organization>\n" ++
         "  </organizations>\n" ++
         "  <resources>\n" ++
         "    <resource identifier=\"resource\" type=\"webcontent\" adlcp:scormtype=\"sco\"\n" ++
         "      href=\"config/index.html\">\n" ++
         "      ").toList ++
        (hrefs.map fun p => "<file href=\"".toList ++ p ++ "\" />\n".toList).flatten ++
        ("\n" ++
         "      <file href=\"config/index.html\" />\n" ++
         "      <file href=\"config/api.js\" />\n" ++
         "      <file href=\"resources/styles/styles.css\" />\n" ++
         "    </resource>\n" ++
         "  </resources>\n" ++
         "</manifest>").toList) ∧
      hrefs.Nodup ∧
      ∀ p : Str, p ∈ hrefs ↔
        (∃ X data, Dirent.file X data ∈ exampleOutput ∧ endsWith X ".html".toList = true ∧
          p = "resources/".toList ++ X) ∨
        (∃ D entries X data, Dirent.dir D (some entries) ∈ exampleOutput ∧
          Dirent.file X data ∈ entries ∧ endsWith X ".html".toList = true ∧
          p = "resources/".toList ++ D ++ '/' :: X) :=
  ⟨⟨by decide, by decide, by decide⟩, rfl,
   manifest_hrefs_exact exampleOutput (by decide) (by decide) (by decide)⟩

/-- Witness of C10: for the example output tree the page list is
`resources/intro.html`, `resources/guide/setup.html`; the `resources` text of
the manifest is these two paths as `<file href=... />` lines in this order;
the manifest and the index written for it are as shown; and the names of the
tree are valid, so the list is the contributions of its entries in listing
order. -/
theorem pageArray_eq_manifest_hrefs_witness :
    pageArrayLoop [] exampleOutput
      = some ["resources/intro.html".toList, "resources/guide/setup.html".toList] ∧
    manifestLoop [] exampleOutput = some
        ("<file href=\"resources/intro.html\" />\n" ++
         "<file href=\"resources/guide/setup.html\" />\n").toList ∧
    generateIMSManifest (some exampleOutput) = some
        ("<?xml version=\"1.0\" standalone=\"no\"?>\n" ++
         "<manifest identifier=\"com.scorm.golfsamples.runtime.basicruntime.12\" version=\"1\"\n" ++
         "  xmlns=\"http://www.imsproject.org/xsd/imscp_rootv1p1p2\"\n" ++
         "  xmlns:adlcp=\"http://www.adlnet.org/xsd/adlcp_rootv1p2\"\n" ++
         "  xmlns:xsi=\"http://www.w3.org/2001/XMLSchema-instance\"\n" ++
         "  xsi:schemaLocation=\"http://www.imsproject.org/xsd/imscp_rootv1p1p2 imscp_rootv1p1p2.xsd\n" ++
         "                      http://www.imsglobal.org/xsd/imsmd_rootv1p2p1 imsmd_rootv1p2p1.xsd\n" ++
         "                      http://www.adlnet.org/xsd/adlcp_rootv1p2 adlcp_rootv1p2.xsd\">\n" ++
         "\n" ++
         "  <metadata>\n" ++
         "    <schema>ADL SCORM</schema>\n" ++
         "    <schemaversion>1.2</schemaversion>\n" ++
         "  </metadata>\n" ++
         "  <organizations default=\"four_geeks_academy_org\">\n" ++
         "    <organization identifier=\"four_geeks_academy_org\">\n" ++
         "      <title>Prompt Engineering Course</title>\n" ++
         "      <item identifier=\"item_1\" identifierref=\"resource\">\n" ++
         "        <title>Prompt Engineering</title>\n" ++
         "      </item>\n" ++
         "    </organization>\n" ++
         "  </organizations>\n" ++
         "  <resources>\n" ++
         "    <resource identifier=\"resource\" type=\"webcontent\" adlcp:scormtype=\"sco\"\n" ++
         "      href=\"config/index.html\">\n" ++
         "      <file href=\"resources/intro.html\" />\n" ++
         "<file href=\"resources/guide/setup.html\" />\n" ++
         "\n" ++
         "      <file href=\"config/index.html\" />\n" ++
         "      <file href=\"config/api.js\" />\n" ++
         "      <file href=\"resources/styles/styles.css\" />\n" ++
         "    </resource>\n" ++
         "  </resources>\n" ++
         "</manifest>").toList ∧
    updateIndexHTML (some exampleOutput) (some "  var pageArray = [];\n".toList)
      = some ("  var pageArray = " ++
          "[\"resources/intro.html\",\"resources/guide/setup.html\"];\n").toList ∧
    namesValid exampleOutput = true ∧
    (pageArrayLoop [] exampleOutput
        = (if allReadable exampleOutput = true then some (exampleOutput.flatMap entryPaths)
           else none) ∧
      ∀ p ∈ exampleOutput.flatMap entryPaths, "resources/".toList <+: p) :=
  ⟨by decide, by decide, rfl, by decide, by decide,
   (pageArray_eq_manifest_hrefs exampleOutput).2.2.2 (by decide)⟩

/-- C1, the code at failing inputs: the page of the input file `a.md.md` is
written to `resources/a.html.md`, not to `resources/a.md.html`, and the page
of `intro.md` in the input directory `v1.md-notes` is written under
`resources/v1.html-notes`, not under `resources/v1.md-notes`: the first `.md`
of a name is replaced, in file names and in directory names. -/
theorem first_md_replaced_in_output_path :
    writtenPaths (flattenEvents (convertMarkdownToHTML okEnv "docs".toList "resources".toList
      (some [Dirent.file "a.md.md".toList (some "x".toList),
             Dirent.dir "v1.md-notes".toList
               (some [Dirent.file "intro.md".toList (some "y".toList)])])))
      = ["resources/a.html.md".toList, "resources/v1.html-notes/intro.html".toList] := by
  have h1 : endsWith "a.md.md".toList ".md".toList = true := by decide
  have h2 : endsWith "intro.md".toList ".md".toList = true := by decide
  have p1 : pathJoin ["resources".toList, outputName "a.md.md".toList]
      = "resources/a.html.md".toList := by decide
  have p2 : pathJoin ["resources".toList, outputName "v1.md-notes".toList]
      = "resources/v1.html-notes".toList := by decide
  have p3 : pathJoin ["resources/v1.html-notes".toList, outputName "intro.md".toList]
      = "resources/v1.html-notes/intro.html".toList := by decide
  simp only [convertMarkdownToHTML, convertLoop, okEnv, h1, h2, p1, p2, p3, if_true,
    flattenEvents, flattenEvent, writtenPaths, List.append_nil, List.cons_append,
    List.nil_append]

/-- C9, the code at a failing input: for an input tree with the subdirectory
`guide`, `generateIMSManifest` and `updateIndexHTML` are each called twice,
once with the mirrored subdirectory `resources/guide` and once with
`resources`. -/
theorem stages_called_per_directory :
    manifestCalls (flattenEvents (convertMarkdownToHTML okEnv "docs".toList "resources".toList
      (some [Dirent.dir "guide".toList
               (some [Dirent.file "setup.md".toList (some "s".toList)]),
             Dirent.file "intro.md".toList (some "i".toList)])))
      = ["resources/guide".toList, "resources".toList] ∧
    indexCalls (flattenEvents (convertMarkdownToHTML okEnv "docs".toList "resources".toList
      (some [Dirent.dir "guide".toList
               (some [Dirent.file "setup.md".toList (some "s".toList)]),
             Dirent.file "intro.md".toList (some "i".toList)])))
      = ["resources/guide".toList, "resources".toList] := by
  have h1 : endsWith "setup.md".toList ".md".toList = true := by decide
  have h2 : endsWith "intro.md".toList ".md".toList = true := by decide
  have p2 : pathJoin ["resources".toList, outputName "guide".toList]
      = "resources/guide".toList := by decide
  constructor <;>
  simp only [convertMarkdownToHTML, convertLoop, okEnv, h1, h2, p2, if_true,
    flattenEvents, flattenEvent, manifestCalls, indexCalls, List.append_nil, List.cons_append,
    List.nil_append]

/-- C6 as stated fails: in each of four runs of the script the conversion
step raises an error at the top level (the `readdir` of the input directory,
the `mkdir` for the directory `guide`, the `readFile` of `intro.md`, the
`writeFile` of its page) and the whole run is the logged error: neither
`generateIMSManifest` nor `updateIndexHTML` is called.  In a fifth run
`first.md` is converted before the `readFile` of `second.md` fails, and the
run again calls neither. -/
theorem failed_conversion_skips_manifest_and_index :
    runScript okEnv "/app".toList (some "docs".toList) none = some [Event.errorLogged] ∧
    runScript mkdirFailsEnv "/app".toList (some "docs".toList)
        (some [Dirent.dir "guide".toList (some [])]) = some [Event.errorLogged] ∧
    runScript okEnv "/app".toList (some "docs".toList)
        (some [Dirent.file "intro.md".toList none]) = some [Event.errorLogged] ∧
    runScript writeFailsEnv "/app".toList (some "docs".toList)
        (some [Dirent.file "intro.md".toList (some "text".toList)])
      = some [Event.errorLogged] ∧
    (runScript okEnv "/app".toList (some "docs".toList)
        (some [Dirent.file "first.md".toList (some "text".toList),
               Dirent.file "second.md".toList none])).map
        (fun events => (writtenPaths (flattenEvents events),
          manifestCalls (flattenEvents events), indexCalls (flattenEvents events)))
      = some (["/app/resources/first.html".toList], [], []) := by
  have hp : ¬ "docs".toList = [] := by decide
  have h1 : endsWith "intro.md".toList ".md".toList = true := by decide
  have h2 : endsWith "first.md".toList ".md".toList = true := by decide
  have h3 : endsWith "second.md".toList ".md".toList = true := by decide
  have p1 : pathJoin [pathJoin ["/app".toList, "resources".toList],
      outputName "first.md".toList] = "/app/resources/first.html".toList := by decide
  refine ⟨?_, ?_, ?_, ?_, ?_⟩ <;>
  simp only [runScript, if_neg hp, convertMarkdownToHTML, convertLoop, okEnv, mkdirFailsEnv,
    writeFailsEnv, h1, h2, h3, p1, if_true, if_false, Bool.false_eq_true, List.nil_append,
    List.cons_append, List.append_nil, Option.map_some', flattenEvents, flattenEvent,
    writtenPaths, manifestCalls, indexCalls]

/-- Witness of C6, amended: the runs in which the `readdir` of the input
directory, the `mkdir` for the top-level directory `guide`, the `readFile` of
`intro.md` or the `writeFile` of its page fails have the logged error as their
last event and no stage call; a run in which only the listing of the
subdirectory `guide` fails does not fail at the top level and has the two
stage calls on `/app/resources` as its last events. -/
theorem conversion_failure_skips_stages_witness :
    "docs".toList ≠ [] ∧
    (conversionError okEnv (pathJoin ["/app".toList, "resources".toList])
        none = true ∧
      ∃ events : List Event,
        runScript okEnv "/app".toList (some "docs".toList)
          none = some events ∧
        events.getLast? = some Event.errorLogged ∧
        ∀ e ∈ events, e.isStageCall = false) ∧
    (conversionError mkdirFailsEnv (pathJoin ["/app".toList, "resources".toList])
        (some [Dirent.dir "guide".toList (some [])]) = true ∧
      ∃ events : List Event,
        runScript mkdirFailsEnv "/app".toList (some "docs".toList)
          (some [Dirent.dir "guide".toList (some [])]) = some events ∧
        events.getLast? = some Event.errorLogged ∧
        ∀ e ∈ events, e.isStageCall = false) ∧
    (conversionError okEnv (pathJoin ["/app".toList, "resources".toList])
        (some [Dirent.file "intro.md".toList none]) = true ∧
      ∃ events : List Event,
        runScript okEnv "/app".toList (some "docs".toList)
          (some [Dirent.file "intro.md".toList none]) = some events ∧
        events.getLast? = some Event.errorLogged ∧
        ∀ e ∈ events, e.isStageCall = false) ∧
    (conversionError writeFailsEnv (pathJoin ["/app".toList, "resources".toList])
        (some [Dirent.file "intro.md".toList (some "text".toList)]) = true ∧
      ∃ events : List Event,
        runScript writeFailsEnv "/app".toList (some "docs".toList)
          (some [Dirent.file "intro.md".toList (some "text".toList)]) = some events ∧
        events.getLast? = some Event.errorLogged ∧
        ∀ e ∈ events, e.isStageCall = false) ∧
    (conversionError okEnv (pathJoin ["/app".toList, "resources".toList])
        (some [Dirent.dir "guide".toList none]) = false ∧
      ∃ events : List Event,
        runScript okEnv "/app".toList (some "docs".toList)
          (some [Dirent.dir "guide".toList none]) = some events ∧
        ∃ before : List Event,
          (∀ e ∈ before, e.isStageCall = false ∧ e ≠ Event.errorLogged) ∧
          events = before ++
            [Event.generateIMSManifest (pathJoin ["/app".toList, "resources".toList]),
             Event.updateIndexHTML (pathJoin ["/app".toList, "resources".toList])]) :=
  have hp : "docs".toList ≠ [] := by decide
  have f0 : conversionError okEnv (pathJoin ["/app".toList, "resources".toList])
      none = true := by decide
  have f1 : conversionError mkdirFailsEnv (pathJoin ["/app".toList, "resources".toList])
      (some [Dirent.dir "guide".toList (some [])]) = true := by decide
  have f2 : conversionError okEnv (pathJoin ["/app".toList, "resources".toList])
      (some [Dirent.file "intro.md".toList none]) = true := by decide
  have f3 : conversionError writeFailsEnv (pathJoin ["/app".toList, "resources".toList])
      (some [Dirent.file "intro.md".toList (some "text".toList)]) = true := by decide
  have h2 : conversionError okEnv (pathJoin ["/app".toList, "resources".toList])
      (some [Dirent.dir "guide".toList none]) = false := by decide
  ⟨hp,
   ⟨f0,
    (conversion_failure_skips_stages okEnv "/app".toList "docs".toList _ hp).imp
      fun _ h => ⟨h.1, h.2.1 f0⟩⟩,
   ⟨f1,
    (conversion_failure_skips_stages mkdirFailsEnv "/app".toList "docs".toList _ hp).imp
      fun _ h => ⟨h.1, h.2.1 f1⟩⟩,
   ⟨f2,
    (conversion_failure_skips_stages okEnv "/app".toList "docs".toList _ hp).imp
      fun _ h => ⟨h.1, h.2.1 f2⟩⟩,
   ⟨f3,
    (conversion_failure_skips_stages writeFailsEnv "/app".toList "docs".toList _ hp).imp
      fun _ h => ⟨h.1, h.2.1 f3⟩⟩,
   ⟨h2,
    (conversion_failure_skips_stages okEnv "/app".toList "docs".toList _ hp).imp
      fun _ h => ⟨h.1, h.2.2 h2⟩⟩⟩

end ConvertMarkdown
